import Mathlib

/-!
Verification of the issuebot pull-request disposition engine against its
Go source (package main of github.com/tailscale/issuebot).

The embedding is shallow: each Go function of the core is translated to a
Lean function over explicit inputs; the process-global regexp, the shared
debounce cache, and the results of remote GitHub API calls are passed as
arguments; a Go runtime panic is modeled by `Except.error`.
-/

set_option autoImplicit false

namespace Issuebot

/-- Disposition of a pull request (`pullRequestStatus` in the Go source,
a `byte` enumeration declared with `iota`); the constructors are listed in
the source order, so in increasing order of strength. -/
inductive pullRequestStatus : Type
  | prFailed
  | prSkipped
  | prCleanup
  | prSmall
  | prRevert
  | prBot
  | prLinked
deriving DecidableEq, Repr, Fintype

/-- Numeric value of a disposition: the `byte` value the Go `iota`
enumeration assigns, used for all `<`, `<=` and `>` comparisons. -/
def pullRequestStatus.rank : pullRequestStatus → Nat
  | .prFailed => 0
  | .prSkipped => 1
  | .prCleanup => 2
  | .prSmall => 3
  | .prRevert => 4
  | .prBot => 5
  | .prLinked => 6

/-- Go `strings.Contains s sub`: `sub` occurs as a contiguous substring of
`s`. -/
def strContains (s sub : String) : Bool := decide (sub.data <:+: s.data)

/-- Go `strings.HasPrefix s pre`: `s` begins with `pre`. -/
def strHasPrefix (s pre : String) : Bool := decide (pre.data <+: s.data)

/-- Go `strings.HasSuffix s suf`: `s` ends with `suf`. -/
def strHasSuffix (s suf : String) : Bool := decide (suf.data <:+ s.data)

/-- Go `strings.ToLower`, restricted to ASCII folding: lowercase every
character. -/
def strToLower (s : String) : String := String.mk (s.data.map Char.toLower)

/-- Splitting worker for `splitLines`: accumulate the current line in
reverse, emitting a line at every newline character. -/
def splitLinesAux : List Char → List Char → List String
  | [], acc => [String.mk acc.reverse]
  | c :: cs, acc =>
    if c = '\n' then String.mk acc.reverse :: splitLinesAux cs []
    else splitLinesAux cs (c :: acc)

/-- Go `strings.Split(message, "\n")`: the lines of `s`, where every
newline character separates two (possibly empty) lines. -/
def splitLines (s : String) : List String := splitLinesAux s.data []

/-- Fields worker: accumulate the current field in reverse, ending it at
every whitespace character and emitting no empty fields. -/
def strFieldsAux : List Char → List Char → List String
  | [], acc => if acc.isEmpty then [] else [String.mk acc.reverse]
  | c :: cs, acc =>
    if c.isWhitespace then
      if acc.isEmpty then strFieldsAux cs [] else String.mk acc.reverse :: strFieldsAux cs []
    else strFieldsAux cs (c :: acc)

/-- Go `strings.Fields s`: the maximal runs of non-whitespace characters of
`s`, in order. -/
def strFields (s : String) : List String := strFieldsAux s.data []

/-- Go `strings.Join ws sep`. -/
def strJoin (ws : List String) (sep : String) : String :=
  match ws with
  | [] => ""
  | [w] => w
  | w :: rest => w ++ sep ++ strJoin rest sep

/-- Go `strings.EqualFold` restricted to simple ASCII case folding:
equality of the lowercased strings. -/
def eqFold (s t : String) : Bool := strToLower s == strToLower t

/-- The verb list of `checkCommitMessage`. -/
def verbs : List String := ["close", "closes", "closed", "fix", "fixes", "fixed",
  "resolve", "resolves", "resolved", "updates", "for"]

/-- Inner verb loop of `checkCommitMessage` on one lowercased line: some
recognized verb begins the line and the line mentions `#` or `github.com`. -/
def lineLinksIssue (lower : String) : Bool :=
  verbs.any fun verb =>
    strHasPrefix lower verb && (strContains lower "#" || strContains lower "github.com")

/-- Line loop of `checkCommitMessage`: the first qualifying rule among the
lines, carrying the index so the Revert rule applies only to line 0. -/
def scanLines : Nat → List String → Option pullRequestStatus
  | _, [] => none
  | idx, line :: rest =>
    if idx = 0 ∧ strHasPrefix line "Revert" then some .prRevert
    else if lineLinksIssue (strToLower line) then some .prLinked
    else scanLines (idx + 1) rest

/-- Go `checkCommitMessage`: classify one commit message. The line scan
(Revert on the first line, verb plus `#`/`github.com` on any line) runs
first; if no line fires, the whole message is checked for the
`skip-issuebot` and `#cleanup` substrings. -/
def checkCommitMessage (message : String) : pullRequestStatus :=
  match scanLines 0 (splitLines message) with
  | some disp => disp
  | none =>
    if strContains message "skip-issuebot" then .prSkipped
    else if strContains message "#cleanup" then .prCleanup
    else .prFailed

/-- The commit author of a Go `github.CommitAuthor`: name and e-mail, each
possibly a nil pointer. -/
structure CommitAuthor where
  name : Option String
  email : Option String

/-- Model of a compiled Go RE2 regexp as `isAutomationBotAuthor` uses it:
the number of parenthesized subexpressions, and `FindStringSubmatch`
(`none` models the nil no-match slice; `some m` models a slice of length
`numSubexp + 1`, head the whole match followed by the captures). -/
structure Regexp where
  numSubexp : Nat
  findStringSubmatch : String → Option (List String)

/-- Go `isAutomationBotAuthor`, with the process-global `botAuthorRE`
passed explicitly (`none` models the nil regexp). `Except.error` models a
Go runtime panic: the source indexes `m[1]` whenever `len(m) > 0`, which
is out of range when the slice has length 1. -/
def isAutomationBotAuthor (botAuthorRE : Option Regexp) (u : Option CommitAuthor) :
    Except String Bool :=
  match botAuthorRE with
  | none => .ok false
  | some re =>
    match u with
    | none => .ok false
    | some a =>
      match a.name, a.email with
      | some name, some email =>
        match re.findStringSubmatch email with
        | none => .ok false
        | some m =>
          if 0 < m.length then
            match m.get? 1 with
            | some cap => .ok (eqFold (strJoin (strFields name) "-") cap)
            | none => .error "runtime error: index out of range"
          else .ok true
      | _, _ => .ok false

/-- The Go regexp compiled from a pattern that is a plain literal string
(no metacharacters): it has no capturing group, and `FindStringSubmatch`
returns the one-element slice holding the pattern whenever the pattern
occurs in the input. -/
def literalRegexp (pat : String) : Regexp where
  numSubexp := 0
  findStringSubmatch := fun s => if strContains s pat then some [pat] else none

/-- RE2 word character or hyphen, the character class of the capturing
group in the unit test's bot-author pattern. -/
def isWordOrHyphen (c : Char) : Bool := c.isAlphanum || c = '_' || c = '-'

/-- Model of the anchored Go regexp of the unit test,
`noreply` `\+` `([-\w]+)` `@example.com` anchored at both ends: one
capturing group holding the nonempty word-or-hyphen run between
`noreply+` and `@example.com`. -/
def noreplyRegexp : Regexp where
  numSubexp := 1
  findStringSubmatch := fun s =>
    if strHasPrefix s "noreply+" && strHasSuffix s "@example.com" then
      let mid := String.mk ((s.data.drop 8).take (s.data.length - 20))
      if !mid.data.isEmpty && mid.data.all isWordOrHyphen then some [s, mid] else none
    else none

/-- One accumulation step of `checkPullRequest`:
`if disp > status { status = disp }`. -/
def updateStatus (status disp : pullRequestStatus) : pullRequestStatus :=
  if status.rank < disp.rank then disp else status

/-- Inner commit loop of `checkPullRequest`, abstracted to the per-commit
disposition (the max of the message and metadata classifier results is
folded in one step): accumulate with `updateStatus` and break once the
accumulated status exceeds `prSkipped`. -/
def scanCommits (status : pullRequestStatus) : List pullRequestStatus → pullRequestStatus
  | [] => status
  | d :: ds =>
    let status' := updateStatus status d
    if pullRequestStatus.prSkipped.rank < status'.rank then status'
    else scanCommits status' ds

/-- The maximum disposition of a sequence, as the order-free accumulation
of every element (no early break). -/
def maxDisposition (ds : List pullRequestStatus) : pullRequestStatus :=
  ds.foldl updateStatus .prFailed

/-- The commits `checkPullRequest` actually examines, starting from an
accumulated status at most `prSkipped`: the whole sequence when every
disposition is at most `prSkipped`, else the commits up to and including
the first one whose disposition exceeds `prSkipped`. -/
def examined : List pullRequestStatus → List pullRequestStatus
  | [] => []
  | d :: ds =>
    if pullRequestStatus.prSkipped.rank < d.rank then [d]
    else d :: examined ds

/-- Pagination loop of `checkPullRequest` over the pages of per-commit
dispositions: the loop head `for status <= prSkipped` guards each fetch,
the inner loop is `scanCommits`, and `NextPage == 0` on the last page ends
the loop. Returns the final status and the number of pages fetched. -/
def runPages (status : pullRequestStatus) : List (List pullRequestStatus) → pullRequestStatus × Nat
  | [] => (status, 0)
  | page :: rest =>
    if status.rank ≤ pullRequestStatus.prSkipped.rank then
      let status' := scanCommits status page
      if rest.isEmpty then (status', 1)
      else
        let r := runPages status' rest
        (r.1, r.2 + 1)
    else (status, 0)

/-- Small-diff step of `checkPullRequest`:
`if status <= prSkipped && totalDiff < 5 { status = prSmall }`. -/
def applySmallDiff (status : pullRequestStatus) (totalDiff : Nat) : pullRequestStatus :=
  if status.rank ≤ pullRequestStatus.prSkipped.rank ∧ totalDiff < 5 then .prSmall
  else status

/-- Nanoseconds in one Go `time.Second`. -/
def second : Nat := 1000000000

/-- Go `debounceInterval = 5 * time.Second`. -/
def debounceInterval : Nat := 5 * second

/-- The Go debounce key `fmt.Sprintf("%s#%d", repo.GetFullName(), pr.GetNumber())`. -/
def debounceKey (fullName : String) (number : Nat) : String :=
  fullName ++ "#" ++ toString number

/-- Stale-entry cleanup loop at the head of Go `debounce`: drop every
cache entry whose age exceeds the debounce interval. -/
def purgeStale (cache : List (String × Nat)) (now : Nat) : List (String × Nat) :=
  cache.filter fun e => !(decide (debounceInterval < now - e.2))

/-- Go `debounce`, with the shared cache passed and returned explicitly
(time in nanoseconds): purge every entry whose age exceeds the interval,
then look the key up; on a miss record the key at `now` and report false,
on a hit report whether the entry is within the interval, unchanged. -/
def debounce (cache : List (String × Nat)) (key : String) (now : Nat) :
    Bool × List (String × Nat) :=
  let m := purgeStale cache now
  match m.lookup key with
  | none => (false, (key, now) :: m)
  | some w => (decide (now - w ≤ debounceInterval), m)

/-- An issue as `checkStubIssue` consumes it: number and title. -/
structure Issue where
  number : Nat
  title : String

/-- Go `issuebotStubLabel`. -/
def issuebotStubLabel : String := "issuebot-stub"

/-- Go `issueTitleTemplate` instantiated with the PR number. -/
def issueTitle (prNumber : Nat) : String :=
  "Placeholder issue for PR #" ++ toString prNumber

/-- Go `checkStubIssue`, with the two remote list calls passed as results
(the issue list is the API's answer to the assignee, stub-label and open
filters; the comment list is the PR thread). `commentIssueNum` abstracts
`issueCommentRE.FindStringSubmatch` followed by `strconv.Atoi` on the
first capture: the issue number embedded in a recognized bot comment. -/
def checkStubIssue (prNumber : Nat)
    (issuesRes : Except String (List Issue))
    (commentsRes : Except String (List String))
    (commentIssueNum : String → Option Nat) : Nat × Option String :=
  match issuesRes with
  | .error e => (0, some ("list issues: " ++ e))
  | .ok issues =>
    match issues.find? (fun issue => issue.title == issueTitle prNumber) with
    | some issue => (issue.number, none)
    | none =>
      match commentsRes with
      | .error e => (0, some ("list comments: " ++ e))
      | .ok comments =>
        match comments.findSome? commentIssueNum with
        | some num => (num, none)
        | none => (0, none)

/-- The two remote mutating operations the stub-issue block of
`checkPullRequest` can invoke, in invocation order. -/
inductive StubAction
  | findExisting
  | createIssue
deriving DecidableEq, Repr

/-- Stub-issue block of `checkPullRequest` (the body guarded by
`status == prSkipped && *enableStubIssues`), with the results of the two
remote operations passed in: returns the operations invoked in order and
the final `(issue, err)` pair. `checkStubIssue` runs first; only when it
reports no issue (number 0, with or without an error) is
`createStubIssue` invoked, and its result overwrites both `issue` and
`err`. -/
def stubIssuePhase (status : pullRequestStatus) (enableStubIssues : Bool)
    (checkRes createRes : Nat × Option String) :
    List StubAction × Nat × Option String :=
  if status = .prSkipped ∧ enableStubIssues then
    if 0 < checkRes.1 then ([.findExisting], checkRes.1, checkRes.2)
    else ([.findExisting, .createIssue], createRes.1, createRes.2)
  else ([], 0, none)

/-! Helper lemmas on the disposition accumulation. -/

/-- The rank of one accumulation step is the maximum of the two ranks. -/
theorem rank_updateStatus : ∀ s d : pullRequestStatus,
    (updateStatus s d).rank = Nat.max s.rank d.rank := by decide

/-- One accumulation step returns one of its two arguments. -/
theorem updateStatus_eq_or : ∀ s d : pullRequestStatus,
    updateStatus s d = s ∨ updateStatus s d = d := by decide

instance : RightCommutative updateStatus := ⟨by decide⟩

/-- With every disposition at most `prSkipped` the early break never fires,
so the examined commits are all of them. -/
theorem examined_eq_self : ∀ {ds : List pullRequestStatus},
    (∀ d ∈ ds, d.rank ≤ pullRequestStatus.prSkipped.rank) → examined ds = ds := by
  intro ds
  induction ds with
  | nil => intro _; rfl
  | cons d ds ih =>
    intro h
    have hd := h d (List.mem_cons_self d ds)
    rw [examined, if_neg (by omega), ih (fun x hx => h x (List.mem_cons_of_mem d hx))]

/-- The commit loop computes the fold of `updateStatus` over exactly the
examined commits, whenever it starts at or below `prSkipped`. -/
theorem scanCommits_eq_foldl_examined :
    ∀ (ds : List pullRequestStatus) (s : pullRequestStatus),
      s.rank ≤ pullRequestStatus.prSkipped.rank →
      scanCommits s ds = (examined ds).foldl updateStatus s := by
  intro ds
  induction ds with
  | nil => intro s _; rfl
  | cons d ds ih =>
    intro s hs
    by_cases hd : pullRequestStatus.prSkipped.rank < d.rank
    · have h1 : pullRequestStatus.prSkipped.rank < (updateStatus s d).rank := by
        rw [rank_updateStatus]
        exact Nat.lt_of_lt_of_le hd (Nat.le_max_right _ _)
      simp only [scanCommits, examined, if_pos hd, if_pos h1, List.foldl]
    · have hle : (updateStatus s d).rank ≤ pullRequestStatus.prSkipped.rank := by
        rw [rank_updateStatus]
        exact Nat.max_le.mpr ⟨hs, Nat.le_of_not_lt hd⟩
      have h1 : ¬ pullRequestStatus.prSkipped.rank < (updateStatus s d).rank :=
        Nat.not_lt.mpr hle
      simp only [scanCommits, examined, if_neg hd, if_neg h1, List.foldl]
      exact ih (updateStatus s d) hle

/-- The accumulator rank never decreases along the fold. -/
theorem rank_le_foldl :
    ∀ (ds : List pullRequestStatus) (s : pullRequestStatus),
      s.rank ≤ (ds.foldl updateStatus s).rank := by
  intro ds
  induction ds with
  | nil => intro s; exact Nat.le_refl _
  | cons d ds ih =>
    intro s
    calc s.rank ≤ (updateStatus s d).rank := by
          rw [rank_updateStatus]; exact Nat.le_max_left _ _
      _ ≤ _ := ih (updateStatus s d)

/-- The fold of `updateStatus` dominates every element of the list. -/
theorem rank_mem_le_foldl :
    ∀ (ds : List pullRequestStatus) (s : pullRequestStatus),
      ∀ d ∈ ds, d.rank ≤ (ds.foldl updateStatus s).rank := by
  intro ds
  induction ds with
  | nil => intro s d hd; cases hd
  | cons x ds ih =>
    intro s d hd
    rcases List.mem_cons.mp hd with rfl | hd
    · calc d.rank ≤ (updateStatus s d).rank := by
            rw [rank_updateStatus]; exact Nat.le_max_right _ _
        _ ≤ _ := rank_le_foldl ds (updateStatus s d)
    · exact ih (updateStatus s x) d hd

/-- The fold of `updateStatus` stays at or below a bound respected by the
start and by every element. -/
theorem foldl_rank_le {k : Nat} :
    ∀ (ds : List pullRequestStatus) (s : pullRequestStatus),
      (∀ d ∈ ds, d.rank ≤ k) → s.rank ≤ k → (ds.foldl updateStatus s).rank ≤ k := by
  intro ds
  induction ds with
  | nil => intro s _ hs; exact hs
  | cons d ds ih =>
    intro s h hs
    refine ih (updateStatus s d) (fun x hx => h x (List.mem_cons_of_mem d hx)) ?_
    rw [rank_updateStatus]
    exact Nat.max_le.mpr ⟨hs, h d (List.mem_cons_self d ds)⟩

/--
C2: the claim fails on the code. The engine breaks out of the commit scan
as soon as the accumulated disposition exceeds `prSkipped`, so on the
per-commit disposition sequence `[prRevert, prLinked]` it accumulates
`prRevert`, not the sequence maximum `prLinked`, and reversing the
sequence changes the accumulated result.
-/
theorem scanCommits_counterexample :
    scanCommits .prFailed [.prRevert, .prLinked] = .prRevert ∧
    maxDisposition [.prRevert, .prLinked] = .prLinked ∧
    scanCommits .prFailed [.prRevert, .prLinked] ≠
      scanCommits .prFailed [.prLinked, .prRevert] := by decide

/--
C2 (amended): the disposition the engine accumulates equals the maximum
disposition across the commits it examines (the whole sequence only when
no per-commit disposition exceeds `prSkipped`, in which case the result is
independent of the order of the commits; otherwise the prefix up to and
including the first commit whose disposition exceeds `prSkipped`).
-/
theorem scanCommits_eq_max_examined :
    (∀ ds : List pullRequestStatus,
        scanCommits .prFailed ds = maxDisposition (examined ds)) ∧
    (∀ ds : List pullRequestStatus, ∀ d ∈ examined ds,
        d.rank ≤ (scanCommits .prFailed ds).rank) ∧
    (∀ ds : List pullRequestStatus,
        (∀ d ∈ ds, d.rank ≤ pullRequestStatus.prSkipped.rank) →
        scanCommits .prFailed ds = maxDisposition ds ∧
        ∀ ds' : List pullRequestStatus, ds.Perm ds' →
          scanCommits .prFailed ds = scanCommits .prFailed ds') := by
  have base : pullRequestStatus.prFailed.rank ≤ pullRequestStatus.prSkipped.rank := by decide
  have main : ∀ ds : List pullRequestStatus,
      scanCommits .prFailed ds = maxDisposition (examined ds) :=
    fun ds => scanCommits_eq_foldl_examined ds .prFailed base
  refine ⟨main, ?_, ?_⟩
  · intro ds d hd
    rw [main ds]
    exact rank_mem_le_foldl (examined ds) .prFailed d hd
  · intro ds h
    have hself : scanCommits .prFailed ds = maxDisposition ds := by
      rw [main ds, examined_eq_self h]
    refine ⟨hself, ?_⟩
    intro ds' hperm
    have h' : ∀ d ∈ ds', d.rank ≤ pullRequestStatus.prSkipped.rank :=
      fun d hd => h d (hperm.mem_iff.mpr hd)
    rw [hself, main ds', examined_eq_self h']
    show ds.foldl updateStatus .prFailed = ds'.foldl updateStatus .prFailed
    exact List.Perm.foldl_eq hperm pullRequestStatus.prFailed

/-- C2 witness: the amended statement applied to concrete sequences. -/
theorem scanCommits_eq_max_examined_witness :
    (pullRequestStatus.prSkipped.rank ≤
      (scanCommits .prFailed [.prFailed, .prSkipped]).rank) ∧
    scanCommits .prFailed [.prFailed, .prSkipped] =
      scanCommits .prFailed [.prSkipped, .prFailed] :=
  ⟨scanCommits_eq_max_examined.2.1 [.prFailed, .prSkipped] .prSkipped (by decide),
   ((scanCommits_eq_max_examined.2.2 [.prFailed, .prSkipped] (by decide)).2
      [.prSkipped, .prFailed] (by decide))⟩

/-- The page loop fetches nothing when the status already exceeds
`prSkipped` at the loop head. -/
theorem runPages_stopped :
    ∀ (st : pullRequestStatus) (pages : List (List pullRequestStatus)),
      pullRequestStatus.prSkipped.rank < st.rank → runPages st pages = (st, 0) := by
  intro st pages h
  cases pages with
  | nil => rfl
  | cons page rest => simp only [runPages, if_neg (Nat.not_le.mpr h)]

/-- A scan that starts at or below `prSkipped` over dispositions all at or
below `prSkipped` ends at or below `prSkipped`. -/
theorem scanCommits_rank_le {ds : List pullRequestStatus}
    (h : ∀ d ∈ ds, d.rank ≤ pullRequestStatus.prSkipped.rank)
    {s : pullRequestStatus} (hs : s.rank ≤ pullRequestStatus.prSkipped.rank) :
    (scanCommits s ds).rank ≤ pullRequestStatus.prSkipped.rank := by
  rw [scanCommits_eq_foldl_examined ds s hs, examined_eq_self h]
  exact foldl_rank_le ds s h hs

/-- With every disposition at or below `prSkipped` the page loop fetches
every page. -/
theorem runPages_fetch_all :
    ∀ (pages : List (List pullRequestStatus)) (s : pullRequestStatus),
      s.rank ≤ pullRequestStatus.prSkipped.rank →
      (∀ p ∈ pages, ∀ d ∈ p, d.rank ≤ pullRequestStatus.prSkipped.rank) →
      (runPages s pages).2 = pages.length := by
  intro pages
  induction pages with
  | nil => intro s _ _; rfl
  | cons page rest ih =>
    intro s hs h
    have hpage := h page (List.mem_cons_self page rest)
    have hs' : (scanCommits s page).rank ≤ pullRequestStatus.prSkipped.rank :=
      scanCommits_rank_le hpage hs
    cases rest with
    | nil => simp [runPages, if_pos hs]
    | cons q qs =>
      have hr := ih (scanCommits s page) hs'
        (fun p hp => h p (List.mem_cons_of_mem page hp))
      simp only [runPages, if_pos hs, List.isEmpty_cons, List.length_cons] at hr ⊢
      simp only [Bool.false_eq_true, if_false] at hr ⊢
      omega

/--
C8: the engine never fetches a further page of commits once the
accumulated disposition strictly exceeds `prSkipped` (the loop head
`for status <= prSkipped` guards every fetch, so at most the page being
processed when the disposition rose is counted), and a disposition of
exactly `prSkipped` never stops the scan: at or below `prSkipped`,
scanning continues until the pages are exhausted.
-/
theorem runPages_early_exit :
    (∀ (st : pullRequestStatus) (pages : List (List pullRequestStatus)),
        pullRequestStatus.prSkipped.rank < st.rank → runPages st pages = (st, 0)) ∧
    (∀ (st : pullRequestStatus) (page : List pullRequestStatus)
        (rest : List (List pullRequestStatus)),
        pullRequestStatus.prSkipped.rank < (scanCommits st page).rank →
        (runPages st (page :: rest)).2 ≤ 1) ∧
    (∀ pages : List (List pullRequestStatus),
        (∀ p ∈ pages, ∀ d ∈ p, d.rank ≤ pullRequestStatus.prSkipped.rank) →
        (runPages .prFailed pages).2 = pages.length) := by
  refine ⟨runPages_stopped, ?_, ?_⟩
  · intro st page rest h
    by_cases hst : st.rank ≤ pullRequestStatus.prSkipped.rank
    · simp only [runPages, if_pos hst]
      cases rest with
      | nil => simp
      | cons q qs =>
        rw [runPages_stopped (scanCommits st page) (q :: qs) h]
        simp
    · rw [runPages_stopped st (page :: rest) (Nat.not_le.mp hst)]
      exact Nat.zero_le 1
  · intro pages h
    exact runPages_fetch_all pages .prFailed (by decide) h

/-- C8 witness: the early-exit statement applied to concrete pages. -/
theorem runPages_early_exit_witness :
    runPages .prLinked [[.prFailed]] = (.prLinked, 0) ∧
    (runPages .prFailed [[.prRevert], [.prFailed]]).2 ≤ 1 ∧
    (runPages .prFailed [[.prFailed], [.prSkipped]]).2 = 2 :=
  ⟨runPages_early_exit.1 .prLinked [[.prFailed]] (by decide),
   runPages_early_exit.2.1 .prFailed [.prRevert] [[.prFailed]] (by decide),
   runPages_early_exit.2.2 [[.prFailed], [.prSkipped]] (by decide)⟩

/-! Helper lemmas on the line scan of the message classifier. -/

/-- Past the first line, a qualifying verb-and-marker line makes the line
scan report `prLinked`. -/
theorem scanLines_linked_of_pos :
    ∀ (lines : List String) (idx : Nat), idx ≠ 0 →
      (∃ l ∈ lines, lineLinksIssue (strToLower l) = true) →
      scanLines idx lines = some .prLinked := by
  intro lines
  induction lines with
  | nil =>
    intro idx _ h
    rcases h with ⟨l, hl, _⟩
    cases hl
  | cons l ls ih =>
    intro idx hidx h
    rw [scanLines, if_neg (fun hc => hidx hc.1)]
    by_cases hq : lineLinksIssue (strToLower l) = true
    · rw [if_pos hq]
    · rw [if_neg hq]
      refine ih (idx + 1) (by omega) ?_
      rcases h with ⟨x, hx, hxq⟩
      rcases List.mem_cons.mp hx with rfl | hx
      · exact absurd hxq hq
      · exact ⟨x, hx, hxq⟩

/-- From line 0, when the first line is not a Revert line, a qualifying
verb-and-marker line makes the line scan report `prLinked`. -/
theorem scanLines_linked (l0 : String) (rest : List String)
    (h0 : strHasPrefix l0 "Revert" = false)
    (h : ∃ l ∈ l0 :: rest, lineLinksIssue (strToLower l) = true) :
    scanLines 0 (l0 :: rest) = some .prLinked := by
  rw [scanLines, if_neg (fun hc => by rw [h0] at hc; exact Bool.false_ne_true hc.2)]
  by_cases hq : lineLinksIssue (strToLower l0) = true
  · rw [if_pos hq]
  · rw [if_neg hq]
    refine scanLines_linked_of_pos rest 1 (by omega) ?_
    rcases h with ⟨x, hx, hxq⟩
    rcases List.mem_cons.mp hx with rfl | hx
    · exact absurd hxq hq
    · exact ⟨x, hx, hxq⟩

/-- Past the first line, the line scan reports nothing when no line
qualifies. -/
theorem scanLines_none_of_pos :
    ∀ (lines : List String) (idx : Nat), idx ≠ 0 →
      (∀ l ∈ lines, lineLinksIssue (strToLower l) = false) →
      scanLines idx lines = none := by
  intro lines
  induction lines with
  | nil => intro idx _ _; rfl
  | cons l ls ih =>
    intro idx hidx h
    rw [scanLines, if_neg (fun hc => hidx hc.1)]
    rw [if_neg (by rw [h l (List.mem_cons_self l ls)]; exact Bool.false_ne_true)]
    exact ih (idx + 1) (by omega) (fun x hx => h x (List.mem_cons_of_mem l hx))

/-- From line 0, the line scan reports nothing when the first line is not
a Revert line and no line qualifies. -/
theorem scanLines_none (l0 : String) (rest : List String)
    (h0 : strHasPrefix l0 "Revert" = false)
    (h : ∀ l ∈ l0 :: rest, lineLinksIssue (strToLower l) = false) :
    scanLines 0 (l0 :: rest) = none := by
  rw [scanLines, if_neg (fun hc => by rw [h0] at hc; exact Bool.false_ne_true hc.2)]
  rw [if_neg (by rw [h l0 (List.mem_cons_self l0 rest)]; exact Bool.false_ne_true)]
  exact scanLines_none_of_pos rest 1 (by omega) (fun x hx => h x (List.mem_cons_of_mem l0 hx))

/-- A Revert first line decides the line scan immediately. -/
theorem scanLines_revert (l0 : String) (rest : List String)
    (h0 : strHasPrefix l0 "Revert" = true) :
    scanLines 0 (l0 :: rest) = some .prRevert := by
  rw [scanLines, if_pos ⟨rfl, h0⟩]

/-- Without a qualifying line the line scan never reports `prLinked`. -/
theorem scanLines_ne_linked :
    ∀ (lines : List String) (idx : Nat),
      (∀ l ∈ lines, lineLinksIssue (strToLower l) = false) →
      scanLines idx lines = none ∨ scanLines idx lines = some .prRevert := by
  intro lines
  induction lines with
  | nil => intro idx _; exact Or.inl rfl
  | cons l ls ih =>
    intro idx h
    rw [scanLines]
    by_cases hc : idx = 0 ∧ strHasPrefix l "Revert" = true
    · rw [if_pos hc]; exact Or.inr rfl
    · rw [if_neg hc]
      rw [if_neg (by rw [h l (List.mem_cons_self l ls)]; exact Bool.false_ne_true)]
      exact ih (idx + 1) (fun x hx => h x (List.mem_cons_of_mem l hx))

/--
C3: the claim fails on the code. A commit message whose first line starts
with `Revert` is classified `prRevert` even when a later line begins with
a recognized verb and mentions `#`: the Revert rule fires first. The
counterexample message contains the qualifying line `Fixes #1` yet is not
classified `prLinked`.
-/
theorem checkCommitMessage_counterexample :
    (∃ l ∈ splitLines "Revert it\nFixes #1", lineLinksIssue (strToLower l) = true) ∧
    checkCommitMessage "Revert it\nFixes #1" = .prRevert ∧
    checkCommitMessage "Revert it\nFixes #1" ≠ .prLinked := by decide

/--
C3 (amended): for every commit message whose first line does not start
with `Revert`, containing a line that begins (case-insensitively) with a
recognized verb and that mentions `#` or `github.com` on the same
(lowercased) line, the classifier returns `prLinked`; when no line
qualifies the classifier never returns `prLinked`, and in particular a
verb line citing a foreign tracker ID such as `Updates XXX-123` yields
`prFailed`.
-/
theorem checkCommitMessage_linked :
    (∀ (message l0 : String) (rest : List String),
        splitLines message = l0 :: rest →
        strHasPrefix l0 "Revert" = false →
        (∃ l ∈ splitLines message, lineLinksIssue (strToLower l) = true) →
        checkCommitMessage message = .prLinked) ∧
    (∀ message : String,
        (∀ l ∈ splitLines message, lineLinksIssue (strToLower l) = false) →
        checkCommitMessage message ≠ .prLinked) ∧
    checkCommitMessage "prLinked Linear number\nUpdates XXX-123" = .prFailed := by
  refine ⟨?_, ?_, by decide⟩
  · intro message l0 rest hsplit h0 h
    rw [hsplit] at h
    rw [checkCommitMessage, hsplit, scanLines_linked l0 rest h0 h]
  · intro message h
    have he : checkCommitMessage message =
        (if strContains message "skip-issuebot" = true then .prSkipped
         else if strContains message "#cleanup" = true then .prCleanup
         else .prFailed) ∨ checkCommitMessage message = .prRevert := by
      rw [checkCommitMessage]
      rcases scanLines_ne_linked (splitLines message) 0 h with hn | hr
      · rw [hn]; exact Or.inl rfl
      · rw [hr]; exact Or.inr rfl
    rcases he with he | he <;> rw [he]
    · split
      · decide
      · split
        · decide
        · decide
    · decide

/-- C3 witness: the amended statement applied to concrete messages. -/
theorem checkCommitMessage_linked_witness :
    checkCommitMessage "Fixes #1" = .prLinked ∧
    checkCommitMessage "hello world" ≠ .prLinked :=
  ⟨checkCommitMessage_linked.1 "Fixes #1" "Fixes #1" [] (by decide) (by decide) (by decide),
   checkCommitMessage_linked.2.1 "hello world" (by decide)⟩

/--
C4: the commit-message classifier is total with the source precedence: a
first line starting with `Revert` returns `prRevert` regardless of the
rest; otherwise a qualifying verb-and-marker line returns `prLinked`
ahead of the substring checks; with neither, a `skip-issuebot` substring
yields `prSkipped`, else a `#cleanup` substring yields `prCleanup`, else
`prFailed`.
-/
theorem checkCommitMessage_precedence :
    (∀ (message l0 : String) (rest : List String),
        splitLines message = l0 :: rest →
        strHasPrefix l0 "Revert" = true →
        checkCommitMessage message = .prRevert) ∧
    (∀ (message l0 : String) (rest : List String),
        splitLines message = l0 :: rest →
        strHasPrefix l0 "Revert" = false →
        (∃ l ∈ splitLines message, lineLinksIssue (strToLower l) = true) →
        checkCommitMessage message = .prLinked) ∧
    (∀ (message l0 : String) (rest : List String),
        splitLines message = l0 :: rest →
        strHasPrefix l0 "Revert" = false →
        (∀ l ∈ splitLines message, lineLinksIssue (strToLower l) = false) →
        checkCommitMessage message =
          (if strContains message "skip-issuebot" = true then .prSkipped
           else if strContains message "#cleanup" = true then .prCleanup
           else .prFailed)) := by
  refine ⟨?_, ?_, ?_⟩
  · intro message l0 rest hsplit h0
    rw [checkCommitMessage, hsplit, scanLines_revert l0 rest h0]
  · intro message l0 rest hsplit h0 h
    rw [hsplit] at h
    rw [checkCommitMessage, hsplit, scanLines_linked l0 rest h0 h]
  · intro message l0 rest hsplit h0 h
    rw [hsplit] at h
    rw [checkCommitMessage, hsplit, scanLines_none l0 rest h0 h]

/-- C4 witness: the precedence statement applied to concrete messages. -/
theorem checkCommitMessage_precedence_witness :
    checkCommitMessage "Revert abc\nskip-issuebot" = .prRevert ∧
    checkCommitMessage "Updates #1\nskip-issuebot" = .prLinked ∧
    checkCommitMessage "hello\nskip-issuebot #cleanup" =
      (if strContains "hello\nskip-issuebot #cleanup" "skip-issuebot" = true
       then pullRequestStatus.prSkipped
       else if strContains "hello\nskip-issuebot #cleanup" "#cleanup" = true
       then pullRequestStatus.prCleanup
       else pullRequestStatus.prFailed) :=
  ⟨checkCommitMessage_precedence.1 "Revert abc\nskip-issuebot" "Revert abc"
      ["skip-issuebot"] (by decide) (by decide),
   checkCommitMessage_precedence.2.1 "Updates #1\nskip-issuebot" "Updates #1"
      ["skip-issuebot"] (by decide) (by decide) (by decide),
   checkCommitMessage_precedence.2.2 "hello\nskip-issuebot #cleanup" "hello"
      ["skip-issuebot #cleanup"] (by decide) (by decide) (by decide)⟩

/--
C1: the claim is right and the code is wrong. For a configured pattern
with no capturing group, `FindStringSubmatch` returns a one-element slice
on a match, the source's `len(m) > 0` test is then true, and the
subsequent `m[1]` access panics (index out of range): the classifier
neither returns true nor returns at all, contradicting the function's own
doc comment (`the first parenthesized submatch (if any)`) and leaving its
final `return true` unreachable. The second conjunct evaluates the
classifier at the failing input: the literal pattern
`noreply@example.com`, author name `Foo`, matching e-mail. -/
theorem isAutomationBotAuthor_no_group_panics :
    (∀ (re : Regexp) (name email : String) (m : List String),
        re.findStringSubmatch email = some m → m.length = 1 →
        isAutomationBotAuthor (some re) (some { name := some name, email := some email }) =
          .error "runtime error: index out of range") ∧
    isAutomationBotAuthor (some (literalRegexp "noreply@example.com"))
      (some { name := some "Foo", email := some "noreply@example.com" }) =
      .error "runtime error: index out of range" := by
  constructor
  · intro re name email m hm hlen
    have h1 : (0 : Nat) < m.length := by omega
    have h2 : m.get? 1 = none := List.get?_eq_none.mpr (by omega)
    simp only [isAutomationBotAuthor, hm, if_pos h1, h2]
  · rfl

/-- C1 witness: the general statement applied to the literal pattern. -/
theorem isAutomationBotAuthor_no_group_panics_witness :
    isAutomationBotAuthor (some (literalRegexp "noreply@example.com"))
      (some { name := some "Foo", email := some "noreply@example.com" }) =
      .error "runtime error: index out of range" :=
  isAutomationBotAuthor_no_group_panics.1 (literalRegexp "noreply@example.com")
    "Foo" "noreply@example.com" ["noreply@example.com"] rfl rfl

/--
C5: with a configured pattern whose compiled form captures a first group
(so a match slice carries an entry at index 1), the classifier returns
true iff the captured text equals the author's display name with its
whitespace-separated fields joined by single hyphens, compared
case-insensitively; an absent name, e-mail, or configured pattern yields
`ok false`, never an error.
-/
theorem isAutomationBotAuthor_capture_group :
    (∀ (re : Regexp) (name email cap : String) (m : List String),
        re.findStringSubmatch email = some m → m.get? 1 = some cap →
        isAutomationBotAuthor (some re) (some { name := some name, email := some email }) =
          .ok (eqFold (strJoin (strFields name) "-") cap)) ∧
    (∀ (re : Option Regexp) (a : CommitAuthor),
        a.name = none ∨ a.email = none →
        isAutomationBotAuthor re (some a) = .ok false) ∧
    (∀ u : Option CommitAuthor, isAutomationBotAuthor none u = .ok false) := by
  refine ⟨?_, ?_, ?_⟩
  · intro re name email cap m hm hcap
    have hlen : 1 < m.length := by
      rcases List.get?_eq_some.mp hcap with ⟨h, _⟩
      exact h
    simp only [isAutomationBotAuthor, hm, if_pos (by omega : (0 : Nat) < m.length), hcap]
  · intro re a h
    cases re with
    | none => rfl
    | some r =>
      obtain ⟨n, e⟩ := a
      rcases h with h | h <;> simp only at h <;> subst h
      · rfl
      · cases n <;> rfl
  · intro u; rfl

/-- C5 witness: the capture statement applied to the unit test's pattern
and authors, and absent fields. -/
theorem isAutomationBotAuthor_capture_group_witness :
    isAutomationBotAuthor (some noreplyRegexp)
      (some { name := some "OSS Updater", email := some "noreply+oss-updater@example.com" }) =
      .ok (eqFold (strJoin (strFields "OSS Updater") "-") "oss-updater") ∧
    isAutomationBotAuthor (some noreplyRegexp)
      (some { name := none, email := some "noreply+x@example.com" }) = .ok false ∧
    isAutomationBotAuthor none
      (some { name := some "Foo", email := some "foo@bar.com" }) = .ok false :=
  ⟨isAutomationBotAuthor_capture_group.1 noreplyRegexp "OSS Updater"
      "noreply+oss-updater@example.com" "oss-updater"
      ["noreply+oss-updater@example.com", "oss-updater"] rfl rfl,
   isAutomationBotAuthor_capture_group.2.1 (some noreplyRegexp)
      { name := none, email := some "noreply+x@example.com" } (Or.inl rfl),
   isAutomationBotAuthor_capture_group.2.2
      (some { name := some "Foo", email := some "foo@bar.com" })⟩

/--
C6: after the scan, a final status at or below `prSkipped` together with
an accumulated total diff strictly below 5 lines upgrades the disposition
to `prSmall` (so the pull request is not `prFailed`); a status above
`prSkipped` or a total of 5 or more lines leaves the status unchanged.
-/
theorem applySmallDiff_upgrade :
    (∀ (st : pullRequestStatus) (total : Nat),
        st.rank ≤ pullRequestStatus.prSkipped.rank → total < 5 →
        applySmallDiff st total = .prSmall ∧ applySmallDiff st total ≠ .prFailed) ∧
    (∀ (st : pullRequestStatus) (total : Nat),
        pullRequestStatus.prSkipped.rank < st.rank → applySmallDiff st total = st) ∧
    (∀ (st : pullRequestStatus) (total : Nat),
        5 ≤ total → applySmallDiff st total = st) := by
  refine ⟨?_, ?_, ?_⟩
  · intro st total h1 h2
    rw [applySmallDiff, if_pos ⟨h1, h2⟩]
    exact ⟨rfl, by decide⟩
  · intro st total h1
    rw [applySmallDiff, if_neg (fun hc => absurd hc.1 (Nat.not_le.mpr h1))]
  · intro st total h1
    rw [applySmallDiff, if_neg (fun hc => absurd hc.2 (Nat.not_lt.mpr h1))]

/-- C6 witness: the small-diff statement applied to concrete inputs. -/
theorem applySmallDiff_upgrade_witness :
    (applySmallDiff .prSkipped 4 = .prSmall ∧ applySmallDiff .prSkipped 4 ≠ .prFailed) ∧
    applySmallDiff .prLinked 2 = .prLinked ∧
    applySmallDiff .prFailed 5 = .prFailed :=
  ⟨applySmallDiff_upgrade.1 .prSkipped 4 (by decide) (by decide),
   applySmallDiff_upgrade.2.1 .prLinked 2 (by decide),
   applySmallDiff_upgrade.2.2 .prFailed 5 (by decide)⟩

/-! Helper lemmas on the debounce cache. -/

/-- Every entry surviving the purge is within the debounce interval. -/
theorem purgeStale_age {cache : List (String × Nat)} {now : Nat} {e : String × Nat}
    (h : e ∈ purgeStale cache now) : now - e.2 ≤ debounceInterval := by
  have hp := (List.mem_filter.mp h).2
  simp only [Bool.not_eq_true'] at hp
  exact Nat.le_of_not_lt (of_decide_eq_false hp)

/-- A lookup hit in an association list is a member. -/
theorem mem_of_lookup_eq_some :
    ∀ {l : List (String × Nat)} {k : String} {v : Nat},
      l.lookup k = some v → (k, v) ∈ l := by
  intro l
  induction l with
  | nil => intro k v h; cases h
  | cons e l ih =>
    intro k v h
    obtain ⟨a, b⟩ := e
    rw [List.lookup_cons] at h
    cases hka : (k == a) with
    | true =>
      simp only [hka] at h
      have hk : k = a := eq_of_beq hka
      subst hk
      cases h
      exact List.mem_cons_self _ _
    | false =>
      simp only [hka] at h
      exact List.mem_cons_of_mem (a, b) (ih h)

/-- Filtering preserves the absence of a key from an association list. -/
theorem lookup_filter_none (p : String × Nat → Bool) :
    ∀ (l : List (String × Nat)) (k : String),
      l.lookup k = none → (l.filter p).lookup k = none := by
  intro l
  induction l with
  | nil => intro k _; rfl
  | cons e l ih =>
    intro k h
    obtain ⟨a, b⟩ := e
    rw [List.lookup_cons] at h
    cases hka : (k == a) with
    | true =>
      simp only [hka] at h
      cases h
    | false =>
      simp only [hka] at h
      rw [List.filter_cons]
      cases hp : p (a, b) with
      | true =>
        simp only [hp, if_pos trivial]
        rw [List.lookup_cons]
        simp only [hka]
        exact ih k h
      | false =>
        simp only [hp, Bool.false_eq_true, if_false]
        exact ih k h

/-- A debounce call reporting false took the miss branch: the key was
absent from the purged cache, and was recorded at `now`. -/
theorem debounce_false {cache : List (String × Nat)} {key : String} {now : Nat}
    (h : (debounce cache key now).1 = false) :
    (purgeStale cache now).lookup key = none ∧
    (debounce cache key now).2 = (key, now) :: purgeStale cache now := by
  cases hl : (purgeStale cache now).lookup key with
  | none => exact ⟨rfl, by simp only [debounce, hl]⟩
  | some w =>
    exfalso
    have hmem : (key, w) ∈ purgeStale cache now := mem_of_lookup_eq_some hl
    have hle : now - w ≤ debounceInterval := purgeStale_age hmem
    have ht : (debounce cache key now).1 = true := by
      simp only [debounce, hl]
      exact decide_eq_true hle
    rw [ht] at h
    cases h

/--
C7: one debounce call purges every entry older than the interval
regardless of key; a key absent from the purged cache is inserted at the
current time and the call reports proceed (false); a key present in the
purged cache makes the call report skip (true) with the cache, and so the
stored timestamp, unchanged. Hence a second call with the same key within
the interval reports skip, and two calls spaced beyond the interval both
report proceed.
-/
theorem debounce_check :
    (∀ (cache : List (String × Nat)) (key : String) (now : Nat),
        ∀ e ∈ (debounce cache key now).2, now - e.2 ≤ debounceInterval) ∧
    (∀ (cache : List (String × Nat)) (key : String) (now : Nat),
        (purgeStale cache now).lookup key = none →
        debounce cache key now = (false, (key, now) :: purgeStale cache now)) ∧
    (∀ (cache : List (String × Nat)) (key : String) (now w : Nat),
        (purgeStale cache now).lookup key = some w →
        debounce cache key now = (true, purgeStale cache now)) ∧
    (∀ (cache : List (String × Nat)) (key : String) (t1 t2 : Nat),
        (debounce cache key t1).1 = false → t2 - t1 ≤ debounceInterval →
        (debounce (debounce cache key t1).2 key t2).1 = true) ∧
    (∀ (cache : List (String × Nat)) (key : String) (t1 t2 : Nat),
        (debounce cache key t1).1 = false → debounceInterval < t2 - t1 →
        (debounce (debounce cache key t1).2 key t2).1 = false) := by
  have hbranch : ∀ (cache : List (String × Nat)) (key : String) (now w : Nat),
      (purgeStale cache now).lookup key = some w →
      debounce cache key now = (true, purgeStale cache now) := by
    intro cache key now w hl
    have hmem : (key, w) ∈ purgeStale cache now := mem_of_lookup_eq_some hl
    have hle : now - w ≤ debounceInterval := purgeStale_age hmem
    simp only [debounce, hl, decide_eq_true hle]
  refine ⟨?_, ?_, hbranch, ?_, ?_⟩
  · intro cache key now e he
    cases hl : (purgeStale cache now).lookup key with
    | none =>
      rw [(debounce_false (by simp only [debounce, hl] : (debounce cache key now).1 = false)).2]
        at he
      rcases List.mem_cons.mp he with rfl | he
      · simp
      · exact purgeStale_age he
    | some w =>
      rw [hbranch cache key now w hl] at he
      exact purgeStale_age he
  · intro cache key now hl
    simp only [debounce, hl]
  · intro cache key t1 t2 h1 h2
    obtain ⟨hl1, hc1⟩ := debounce_false h1
    rw [hc1]
    have hsurv : (!(decide (debounceInterval < t2 - t1))) = true := by
      simp only [Bool.not_eq_true', decide_eq_false_iff_not]
      exact Nat.not_lt.mpr h2
    have hpurge : purgeStale ((key, t1) :: purgeStale cache t1) t2 =
        (key, t1) :: purgeStale (purgeStale cache t1) t2 := by
      simp only [purgeStale, List.filter_cons, hsurv, if_pos trivial]
    have hlook : (purgeStale ((key, t1) :: purgeStale cache t1) t2).lookup key =
        some t1 := by
      rw [hpurge, List.lookup_cons]
      simp
    rw [hbranch ((key, t1) :: purgeStale cache t1) key t2 t1 hlook]
  · intro cache key t1 t2 h1 h2
    obtain ⟨hl1, hc1⟩ := debounce_false h1
    rw [hc1]
    have hdrop : (!(decide (debounceInterval < t2 - t1))) = false := by
      simp only [Bool.not_eq_false', decide_eq_true_eq]
      exact h2
    have hpurge : purgeStale ((key, t1) :: purgeStale cache t1) t2 =
        purgeStale (purgeStale cache t1) t2 := by
      simp only [purgeStale, List.filter_cons, hdrop, Bool.false_eq_true, if_false]
    have hlook : (purgeStale ((key, t1) :: purgeStale cache t1) t2).lookup key = none := by
      rw [hpurge]
      exact lookup_filter_none _ (purgeStale cache t1) key hl1
    simp only [debounce, hlook]

/-- C7 witness: the debounce statement applied to concrete calls. -/
theorem debounce_check_witness :
    (∀ e ∈ (debounce [(debounceKey "tailscale/z" 9, 0)] (debounceKey "tailscale/z" 9)
        (debounceInterval + 1)).2, debounceInterval + 1 - e.2 ≤ debounceInterval) ∧
    debounce [] (debounceKey "tailscale/z" 9) 0 =
      (false, [(debounceKey "tailscale/z" 9, 0)]) ∧
    debounce [(debounceKey "tailscale/z" 9, 0)] (debounceKey "tailscale/z" 9) 3 =
      (true, [(debounceKey "tailscale/z" 9, 0)]) ∧
    (debounce (debounce [] (debounceKey "tailscale/z" 9) 0).2
        (debounceKey "tailscale/z" 9) 3).1 = true ∧
    (debounce (debounce [] (debounceKey "tailscale/z" 9) 0).2
        (debounceKey "tailscale/z" 9) (debounceInterval + 1)).1 = false :=
  ⟨debounce_check.1 [(debounceKey "tailscale/z" 9, 0)] (debounceKey "tailscale/z" 9)
      (debounceInterval + 1),
   debounce_check.2.1 [] (debounceKey "tailscale/z" 9) 0 rfl,
   debounce_check.2.2.1 [(debounceKey "tailscale/z" 9, 0)] (debounceKey "tailscale/z" 9)
      3 0 rfl,
   debounce_check.2.2.2.1 [] (debounceKey "tailscale/z" 9) 0 3 rfl (by decide),
   debounce_check.2.2.2.2 [] (debounceKey "tailscale/z" 9) 0 (debounceInterval + 1)
      rfl (by decide)⟩

/--
C9: in the stub-issue block, `checkStubIssue` (the existence check) is
always the first operation invoked — `createStubIssue` appears in the
trace only after it — and whenever the existence check succeeds reporting
an existing issue (a positive issue number with no error, as produced by
a listed open issue bearing the deterministic placeholder title or by a
recognized PR comment), `createStubIssue` is not invoked at all.
-/
theorem stubIssuePhase_find_before_create :
    (∀ (st : pullRequestStatus) (en : Bool) (checkRes createRes : Nat × Option String),
        .createIssue ∈ (stubIssuePhase st en checkRes createRes).1 →
        (stubIssuePhase st en checkRes createRes).1 = [.findExisting, .createIssue]) ∧
    (∀ (prNumber n : Nat) (issuesRes : Except String (List Issue))
        (commentsRes : Except String (List String)) (f : String → Option Nat)
        (createRes : Nat × Option String),
        checkStubIssue prNumber issuesRes commentsRes f = (n, none) → 0 < n →
        (stubIssuePhase .prSkipped true (checkStubIssue prNumber issuesRes commentsRes f)
            createRes).1 = [.findExisting]) := by
  constructor
  · intro st en checkRes createRes hmem
    rw [stubIssuePhase] at hmem ⊢
    by_cases hg : st = pullRequestStatus.prSkipped ∧ en = true
    · rw [if_pos hg] at hmem ⊢
      by_cases hc : 0 < checkRes.1
      · rw [if_pos hc] at hmem
        simp only [List.mem_singleton] at hmem
        cases hmem
      · rw [if_neg hc]
    · rw [if_neg hg] at hmem
      simp only [List.not_mem_nil] at hmem
  · intro prNumber n issuesRes commentsRes f createRes hres hn
    rw [hres]
    rw [stubIssuePhase, if_pos ⟨rfl, rfl⟩, if_pos hn]

/-- C9 witness: the stub dispatch applied to a concrete state where the
placeholder issue exists. -/
theorem stubIssuePhase_find_before_create_witness :
    (stubIssuePhase .prSkipped true (0, none) (9, none)).1 =
      [.findExisting, .createIssue] ∧
    (stubIssuePhase .prSkipped true
        (checkStubIssue 7 (.ok [{ number := 3, title := "Placeholder issue for PR #7" }])
          (.ok []) (fun _ => none)) (9, none)).1 = [.findExisting] :=
  ⟨stubIssuePhase_find_before_create.1 .prSkipped true (0, none) (9, none) (by decide),
   stubIssuePhase_find_before_create.2 7 3
      (.ok [{ number := 3, title := "Placeholder issue for PR #7" }]) (.ok [])
      (fun _ => none) (9, none) rfl (by decide)⟩

/--
C10: when the existence check fails with an error — the issue-list call
failing, or the comment-list call failing after no title matched — the
reported issue number is 0, so the engine still invokes `createStubIssue`,
and the final `(issue, err)` pair is the creation's result: the lookup
error is overwritten and duplicate protection is lost on lookup failure.
-/
theorem stubIssuePhase_lookup_error_discarded :
    (∀ (prNumber : Nat) (e : String) (commentsRes : Except String (List String))
        (f : String → Option Nat) (createRes : Nat × Option String),
        stubIssuePhase .prSkipped true (checkStubIssue prNumber (.error e) commentsRes f)
            createRes =
          ([.findExisting, .createIssue], createRes.1, createRes.2)) ∧
    (∀ (prNumber : Nat) (issues : List Issue) (e : String) (f : String → Option Nat)
        (createRes : Nat × Option String),
        issues.find? (fun issue => issue.title == issueTitle prNumber) = none →
        stubIssuePhase .prSkipped true (checkStubIssue prNumber (.ok issues) (.error e) f)
            createRes =
          ([.findExisting, .createIssue], createRes.1, createRes.2)) := by
  constructor
  · intro prNumber e commentsRes f createRes
    rw [stubIssuePhase, if_pos ⟨rfl, rfl⟩]
    rfl
  · intro prNumber issues e f createRes hfind
    have hres : checkStubIssue prNumber (.ok issues) (.error e) f =
        (0, some ("list comments: " ++ e)) := by
      simp only [checkStubIssue, hfind]
    rw [hres, stubIssuePhase, if_pos ⟨rfl, rfl⟩]
    rfl

/-- C10 witness: the error-discarding statement applied to concrete
failing lookups. -/
theorem stubIssuePhase_lookup_error_discarded_witness :
    stubIssuePhase .prSkipped true (checkStubIssue 7 (.error "boom") (.ok []) (fun _ => none))
        (42, none) =
      ([.findExisting, .createIssue], 42, none) ∧
    stubIssuePhase .prSkipped true (checkStubIssue 7 (.ok []) (.error "boom") (fun _ => none))
        (42, none) =
      ([.findExisting, .createIssue], 42, none) :=
  ⟨stubIssuePhase_lookup_error_discarded.1 7 "boom" (.ok []) (fun _ => none) (42, none),
   stubIssuePhase_lookup_error_discarded.2 7 [] "boom" (fun _ => none) (42, none) rfl⟩

end Issuebot
